import Mathlib

/-!
Shallow embedding of the stonewatch availability watcher
(`watcher.py` and `vip_watcher.py`) and proofs about its
notification decision engine, result grouper, time-grid
enumerator and sliding-window rate limiter.

Conventions of the embedding:
* machine integers become `Nat`/`Int` (epoch seconds are `Int`,
  lead times in whole days are `Nat`);
* the Python dict `seen` becomes an association list
  `List (SlotKey × StoredRec)`; Python dict aliasing (mutating a
  record obtained from the dict mutates the dict) is made explicit
  by writing the mutated record back at the places where the
  source mutates it;
* environment-variable configuration becomes an explicit `Config`
  record whose defaults are the source defaults;
* per-slot observations (the output of the slot normalizer) are a
  `SlotObs` record; the network scan becomes a `List SlotObs`
  input to the engine.
-/

namespace Stonewatch

/-- Environment-derived configuration, defaults as in `watcher.py`. -/
structure Config where
  RENOTIFY_MINUTES : Nat := 120
  LUNCH_MAX_DAYS : Nat := 2
  DINNER_MAX_DAYS : Nat := 3
  MILESTONES : List Nat := [3, 1, 0]
  DAILY_CAP_LUNCH : Nat := 1
  DAILY_CAP_DINNER : Nat := 0
deriving DecidableEq

/-- The default configuration (all env defaults). -/
def defaultConfig : Config := {}

/-- The `PARTY_SIZES` env default `"2,4"`. -/
def PARTY_SIZES : List Nat := [2, 4]

/-- The `NOTIFICATION_PREFIX` env default. -/
def NOTIFICATION_PREFIX : String := "🍸🚨 New Resy 🚨🍸"

/-- The test `service_name.lower().startswith("lunch")` from `watcher.py`
(lower-casing and the prefix test are performed on the character list,
which is what the Python string operations do per character). -/
def isLunchName (s : String) : Bool :=
  ("lunch".data).isPrefixOf (s.data.map Char.toLower)

/-- The test `service_name.lower().startswith("dinner")` from `watcher.py`. -/
def isDinnerName (s : String) : Bool :=
  ("dinner".data).isPrefixOf (s.data.map Char.toLower)

/-- Function `daily_cap_for` from `watcher.py`. -/
def daily_cap_for (cfg : Config) (service_name : String) : Nat :=
  if isLunchName service_name then cfg.DAILY_CAP_LUNCH else cfg.DAILY_CAP_DINNER

/-- Function `max_days_for` from `watcher.py`. -/
def max_days_for (cfg : Config) (service_name : String) : Nat :=
  if isLunchName service_name then cfg.LUNCH_MAX_DAYS else cfg.DINNER_MAX_DAYS

/-- Function `current_milestone` from `watcher.py`:
`reached = [m for m in MILESTONES if lead_days <= m]`,
then `max(reached) if reached else None`. -/
def current_milestone (cfg : Config) (lead_days : Nat) : Option Nat :=
  match cfg.MILESTONES.filter (fun m => lead_days ≤ m) with
  | [] => none
  | x :: xs => some (xs.foldl max x)

/-- The dict-shaped per-slot stored record; absent dict entries are
represented by the Python `get` defaults (`present` ↦ `False`,
`last_notified` ↦ `0`, `last_milestone` ↦ `None`,
`last_notified_date` ↦ `None`). -/
structure RecData where
  present : Bool := false
  last_notified : Int := 0
  last_milestone : Option Nat := none
  last_notified_date : Option String := none
deriving DecidableEq

/-- A stored value in the gist state: either the legacy bare integer
timestamp format or the dict format. -/
inductive StoredRec where
  | legacy (ts : Int)
  | dict (r : RecData)
deriving DecidableEq

/-- The `v if isinstance(v, int) else v.get("present", False)` view used when
deciding whether a stored record is marked present. -/
def StoredRec.presentOf : StoredRec → Bool
  | .legacy _ => false
  | .dict r => r.present

/-- Lines 364–366 of `watcher.py`: `rec = seen.get(key, {})`, with the
legacy `int` shape upgraded to `{"last_notified": int(rec)}`. -/
def upgradeRec : Option StoredRec → RecData
  | none => {}
  | some (.legacy ts) => { last_notified := ts }
  | some (.dict r) => r

/-- Identity of one bookable slot: the fields interpolated into the
Python key string `f"{MERCHANT_ID}|{date_str}|{time_str}|{party}|{svc_name}"`
(the merchant id is a run-wide constant and is omitted). -/
structure SlotKey where
  date_str : String
  time_str : String
  party : Nat
  svc_name : String
deriving DecidableEq

/-- One normalized slot observation handed to the decision engine:
the key fields plus the computed lead time (whole days, floored at
zero, as computed by `lead_days_int`) and the resolved booking URL. -/
structure SlotObs where
  date_str : String
  time_str : String
  party : Nat
  svc_name : String
  lead_days : Nat
  url : String
deriving DecidableEq

/-- The key of an observation. -/
def keyOf (o : SlotObs) : SlotKey :=
  ⟨o.date_str, o.time_str, o.party, o.svc_name⟩

/-- Association-list lookup (Python `dict.get`). -/
def getEntry {α : Type} {β : Type} [DecidableEq α] : List (α × β) → α → Option β
  | [], _ => none
  | (k, v) :: rest, a => if k = a then some v else getEntry rest a

/-- Association-list store (`d[k] = v`): replaces the first binding of the
key, or appends a new binding (Python dicts keep insertion order). -/
def setEntry {α : Type} {β : Type} [DecidableEq α] :
    List (α × β) → α → β → List (α × β)
  | [], a, v => [(a, v)]
  | (k, w) :: rest, a, v =>
      if k = a then (a, v) :: rest else (k, w) :: setEntry rest a v

/-- Python `set.add`. -/
def insertKey {α : Type} [DecidableEq α] (a : α) (s : List α) : List α :=
  if a ∈ s then s else a :: s

/-- The result of evaluating one observation against the engine:
which path of `run_once`'s per-slot logic was taken. -/
inductive Outcome where
  | dedupSkip
  | farFutureSkip
  | firstSighting
  | reappeared
  | dailyCapSkip
  | tooFarSkip
  | milestoneHit
  | cooldownHit
  | noTrigger
deriving DecidableEq

/-- Which outcomes send a notification (`should_notify = True`). -/
def Outcome.notifies : Outcome → Bool
  | .firstSighting => true
  | .reappeared => true
  | .milestoneHit => true
  | .cooldownHit => true
  | _ => false

/-- Lines 353–356 of `watcher.py`: absolute far-future suppression by meal. -/
def farFutureSuppressed (cfg : Config) (o : SlotObs) : Bool :=
  (isLunchName o.svc_name && decide (cfg.LUNCH_MAX_DAYS < o.lead_days)) ||
  (isDinnerName o.svc_name && decide (cfg.DINNER_MAX_DAYS < o.lead_days))

/-- Lines 386–417 of `watcher.py`: the per-slot notification decision,
evaluated against the pre-update record `r` (so `r.present` is
`was_present`). -/
def decision (cfg : Config) (now_ts : Int) (today_str : String)
    (r : RecData) (o : SlotObs) : Outcome :=
  let milestone := current_milestone cfg o.lead_days
  let min_gap : Int := (cfg.RENOTIFY_MINUTES : Int) * 60
  if r.last_notified = 0 then .firstSighting
  else if 0 < r.last_notified ∧ r.present = false then .reappeared
  else if 0 < daily_cap_for cfg o.svc_name ∧
      r.last_notified_date = some today_str then .dailyCapSkip
  else if max_days_for cfg o.svc_name < o.lead_days then .tooFarSkip
  else if milestone ≠ none ∧ milestone ≠ r.last_milestone then .milestoneHit
  else if min_gap ≤ now_ts - r.last_notified then .cooldownHit
  else .noTrigger

/-- A grouping key `(date_str, time_str, svc_name)`. -/
abbrev GroupKey := String × String × String

/-- The update `grouped_slots.setdefault(slot_key, []).append((party, link))`
(lines 436–439 of `watcher.py`): append to the group's list at its
existing position, or create the group at the end. -/
def addGroup (m : List (GroupKey × List (Nat × String)))
    (gk : GroupKey) (pv : Nat × String) : List (GroupKey × List (Nat × String)) :=
  match m with
  | [] => [(gk, [pv])]
  | (k, l) :: rest =>
      if k = gk then (k, l ++ [pv]) :: rest else (k, l) :: addGroup rest gk pv

/-- The mutable in-run state of `run_once`: the working copy of the
persisted state plus the per-run bookkeeping sets and the grouping map. -/
structure RunState where
  seen : List (SlotKey × StoredRec)
  found_this_run : List SlotKey
  present_this_run : List SlotKey
  grouped_slots : List (GroupKey × List (Nat × String))
deriving DecidableEq

/-- Lines 337–439 of `watcher.py`: the processing of one observed slot.
Returns the updated `RunState` and the path taken.

Dict aliasing (`rec["present"] = True` writes through to `seen`) is
modelled by writing the `present := true` record back immediately when
the stored value is already dict-shaped; the fresh and legacy records
reach `seen` only through the notify branch (`seen[key] = rec`). -/
def stepSlot (cfg : Config) (now_ts : Int) (today_str : String)
    (st : RunState) (o : SlotObs) : RunState × Outcome :=
  let k := keyOf o
  if k ∈ st.found_this_run then (st, .dedupSkip)
  else if farFutureSuppressed cfg o then (st, .farFutureSkip)
  else
    let stored := getEntry st.seen k
    let rec0 := upgradeRec stored
    let rec1 := { rec0 with present := true }
    let seen1 := match stored with
      | some (.dict _) => setEntry st.seen k (.dict rec1)
      | _ => st.seen
    let present1 := insertKey k st.present_this_run
    let out := decision cfg now_ts today_str rec0 o
    if out.notifies then
      let rec2 : RecData :=
        { rec1 with
            last_notified := now_ts
            last_milestone := current_milestone cfg o.lead_days
            last_notified_date := some today_str }
      ({ seen := setEntry seen1 k (.dict rec2)
         found_this_run := insertKey k st.found_this_run
         present_this_run := present1
         grouped_slots :=
           addGroup st.grouped_slots (o.date_str, o.time_str, o.svc_name)
             (o.party, o.url) }, out)
    else
      ({ st with seen := seen1, present_this_run := present1 }, out)

/-- Folding `stepSlot` over the scan results, collecting the outcomes. -/
def runSteps (cfg : Config) (now_ts : Int) (today_str : String) :
    RunState → List SlotObs → RunState × List Outcome
  | st, [] => (st, [])
  | st, o :: rest =>
      let (st1, out) := stepSlot cfg now_ts today_str st o
      let (st2, outs) := runSteps cfg now_ts today_str st1 rest
      (st2, out :: outs)

/-- The per-entry action of the end-of-run absence pass. -/
def flipOne (ps : List SlotKey) (k : SlotKey) : StoredRec → StoredRec
  | .legacy ts => .legacy ts
  | .dict r =>
      if r.present = true ∧ k ∉ ps then .dict { r with present := false }
      else .dict r

/-- Lines 461–466 of `watcher.py`: mark any previously-present slots that
were not seen this run as absent (legacy integers are skipped). -/
def flipAbsent (seen : List (SlotKey × StoredRec)) (ps : List SlotKey) :
    List (SlotKey × StoredRec) :=
  seen.map (fun e => (e.1, flipOne ps e.1 e.2))

/-- Insertion of one element into a sorted list (ascending). -/
def insertSorted (x : Nat) : List Nat → List Nat
  | [] => [x]
  | y :: ys => if x ≤ y then x :: y :: ys else y :: insertSorted x ys

/-- Python `sorted` on a list of ints (insertion sort). -/
def sortNat : List Nat → List Nat
  | [] => []
  | x :: xs => insertSorted x (sortNat xs)

/-- One rendered notification. -/
structure NotifItem where
  title : String
  message : String
  url : String
  url_title : String
deriving DecidableEq

/-- Lines 444–459 of `watcher.py`: build one combined notification per
group: sizes sorted ascending, joined with `" or "`, first link used. -/
def buildItems (grouped : List (GroupKey × List (Nat × String))) :
    List NotifItem :=
  grouped.map (fun e =>
    let parties := sortNat (e.2.map (fun pv => pv.1))
    let party_str := " or ".intercalate (parties.map (fun p => toString p))
    let link := match e.2 with
      | [] => ""
      | pv :: _ => pv.2
    { title := NOTIFICATION_PREFIX
      message := e.1.1 ++ " @ " ++ e.1.2.1 ++ ", for " ++ party_str ++ ". Act fast!"
      url := link
      url_title := "Reserve Now" })

/-- The observable result of one run. -/
structure RunResult where
  seen : List (SlotKey × StoredRec)
  found_this_run : List SlotKey
  present_this_run : List SlotKey
  grouped_slots : List (GroupKey × List (Nat × String))
  items : List NotifItem
  outcomes : List Outcome
deriving DecidableEq

/-- Function `run_once` from `watcher.py`, with the scan (the normalized slots
found by probing, in probe order) and the loaded state as inputs:
processes every observation, builds the grouped notifications, and
runs the end-of-run absence pass. -/
def run_once (cfg : Config) (now_ts : Int) (today_str : String)
    (seen0 : List (SlotKey × StoredRec)) (scan : List SlotObs) : RunResult :=
  let (st, outs) := runSteps cfg now_ts today_str
    { seen := seen0, found_this_run := [], present_this_run := [],
      grouped_slots := [] } scan
  { seen := flipAbsent st.seen st.present_this_run
    found_this_run := st.found_this_run
    present_this_run := st.present_this_run
    grouped_slots := st.grouped_slots
    items := buildItems st.grouped_slots
    outcomes := outs }

/-- Class `RateLimiter` from `vip_watcher.py`: a ceiling and the recorded call
timestamps (epoch seconds; `time.time()` is passed in as `now`). -/
structure RateLimiter where
  max_per_hour : Nat
  calls : List Int
deriving DecidableEq

/-- Method `RateLimiter.can_call`: prune entries older than one hour, then
compare the window occupancy with the ceiling.  Returns the answer and
the pruned limiter (the source prunes in place). -/
def RateLimiter.can_call (rl : RateLimiter) (now : Int) : Bool × RateLimiter :=
  let calls := rl.calls.filter (fun t => now - t < 3600)
  (calls.length < rl.max_per_hour, { rl with calls := calls })

/-- Method `RateLimiter.record_call`: append the current timestamp. -/
def RateLimiter.record_call (rl : RateLimiter) (now : Int) : RateLimiter :=
  { rl with calls := rl.calls ++ [now] }

/-- Method `RateLimiter.remaining`: prune, then `max(0, ceiling - occupancy)`
(`Nat` subtraction is the floor at zero).  Returns the answer and the
pruned limiter. -/
def RateLimiter.remaining (rl : RateLimiter) (now : Int) : Nat × RateLimiter :=
  let calls := rl.calls.filter (fun t => now - t < 3600)
  (rl.max_per_hour - calls.length, { rl with calls := calls })

/-- Recording a sequence of calls in order (the probing loop's
`limiter.record_call()` per issued probe). -/
def recordAll (rl : RateLimiter) (l : List Int) : RateLimiter :=
  l.foldl (fun rl t => rl.record_call t) rl

/-- The loop shared by `iter_grid` (`watcher.py` lines 66–72) and
`iter_vip_time_slots` (`vip_watcher.py` lines 186–214), on local
wall-clock minutes: `while t <= end: yield t; t += step`.

The source loop only terminates for a positive step; a non-positive
step (which would loop forever in the source) is mapped to `[]` so the
definition is total — every claim about the enumerator assumes
`0 < step`. -/
def iterGrid (t endT step : Int) : List Int :=
  if t ≤ endT then
    if 0 < step then t :: iterGrid (t + step) endT step else []
  else []
termination_by (endT + 1 - t).toNat
decreasing_by simp_wf; omega

/-- Function `iter_grid day start_hm end_hm step_min`: the start and end
wall-clock instants are built from the day and the parsed `(hour, minute)`
pairs; everything is measured in minutes since an epoch, with `day`
a day index (so `day * 1440` minutes). -/
def iter_grid (day : Int) (start_hm end_hm : Nat × Nat) (step_min : Int) :
    List Int :=
  iterGrid (day * 1440 + start_hm.1 * 60 + start_hm.2)
    (day * 1440 + end_hm.1 * 60 + end_hm.2) step_min

/-- A scan is key-consistent when observations of the same slot key
report the same lead time — true of real scans, where the lead time is
computed from the slot's date, which the key determines within the
bounded days-ahead horizon. -/
def keyConsistent (scan : List SlotObs) : Prop :=
  ∀ o1 ∈ scan, ∀ o2 ∈ scan, keyOf o1 = keyOf o2 → o1.lead_days = o2.lead_days

/-- A stored record carries a non-negative notification timestamp —
true of every state the program writes (`int(time.time())`) and of
every state `load_seen` keeps, since its retention cutoff is positive. -/
def recNonneg : StoredRec → Prop
  | .legacy ts => 0 ≤ ts
  | .dict r => 0 ≤ r.last_notified

/-- All records of a stored state carry non-negative timestamps. -/
def storedNonneg (seen : List (SlotKey × StoredRec)) : Prop :=
  ∀ p ∈ seen, recNonneg p.2

/-- The record persisted by the notify branch (lines 425–428 of
`watcher.py`). -/
def notifRec (cfg : Config) (now_ts : Int) (today_str : String)
    (lead : Nat) : RecData :=
  { present := true, last_notified := now_ts,
    last_milestone := current_milestone cfg lead,
    last_notified_date := some today_str }

/-- The run invariant maintained while the scan loop executes:
notified keys hold the freshly persisted record of one of their
observations, un-notified keys still hold their loaded record, notified
keys were marked present, present keys hold a present dict record, and
present keys come from a non-far-future observation of the scan. -/
def EngineInv (cfg : Config) (now_ts : Int) (today_str : String)
    (seen0 : List (SlotKey × StoredRec)) (scan : List SlotObs)
    (st : RunState) : Prop :=
  (∀ k ∈ st.found_this_run, ∃ o ∈ scan, keyOf o = k ∧
    getEntry st.seen k = some (.dict (notifRec cfg now_ts today_str o.lead_days))) ∧
  (∀ k, k ∉ st.found_this_run → getEntry st.seen k = getEntry seen0 k) ∧
  (∀ k ∈ st.found_this_run, k ∈ st.present_this_run) ∧
  (∀ k ∈ st.present_this_run, ∃ r, getEntry st.seen k = some (.dict r) ∧
    r.present = true) ∧
  (∀ k ∈ st.present_this_run, ∃ o ∈ scan, keyOf o = k ∧
    farFutureSuppressed cfg o = false)

/-! ### Scenario constants used by concrete evaluations -/

/-- Config for the milestone-sequence scenario: defaults except a large
renotify cooldown, so that the cooldown path cannot interfere. -/
def cfgMilestoneSeq : Config := { RENOTIFY_MINUTES := 20000 }

/-- The dinner observation of the milestone-sequence scenario at a given
lead time. -/
def obsDinnerAt (lead : Nat) : SlotObs :=
  { date_str := "Fri Oct 17", time_str := "7:30 PM", party := 2,
    svc_name := "Dinner", lead_days := lead, url := "u" }

/-- A lunch record notified on an earlier calendar day, with a recorded
milestone different from the current one. -/
def recNotifiedYesterday : RecData :=
  { present := true, last_notified := 500000, last_milestone := some 5,
    last_notified_date := some "2026-01-01" }

/-- First lunch observation of the daily-cap scenario (12:00 PM). -/
def obsLunchNoon : SlotObs :=
  ⟨"Mon Jan 05", "12:00 PM", 2, "Lunch", 1, "u1"⟩

/-- Second lunch observation of the daily-cap scenario (12:15 PM). -/
def obsLunchLater : SlotObs :=
  ⟨"Mon Jan 05", "12:15 PM", 2, "Lunch", 1, "u2"⟩

/-- An observation whose party size 7 is not among the configured
`PARTY_SIZES`. -/
def obsPartySeven : SlotObs :=
  ⟨"Mon Jan 05", "7:30 PM", 7, "Dinner", 1, "u7"⟩

/-- Milestone-sequence scenario, run 1: lead time 5 days. -/
def milestoneRun1 : RunResult :=
  run_once cfgMilestoneSeq 1000000 "d1" [] [obsDinnerAt 5]

/-- Milestone-sequence scenario, run 2 (one day later): lead time 2. -/
def milestoneRun2 : RunResult :=
  run_once cfgMilestoneSeq 1086400 "d2" milestoneRun1.seen [obsDinnerAt 2]

/-- Milestone-sequence scenario, run 3 (one day later): lead time 1. -/
def milestoneRun3 : RunResult :=
  run_once cfgMilestoneSeq 1172800 "d3" milestoneRun2.seen [obsDinnerAt 1]

/-- Milestone-sequence scenario, run 4 (one day later): lead time 0. -/
def milestoneRun4 : RunResult :=
  run_once cfgMilestoneSeq 1259200 "d4" milestoneRun3.seen [obsDinnerAt 0]

/-- A dinner observation used by the reappearance scenario. -/
def obsDinnerReappear : SlotObs :=
  ⟨"Mon Jan 05", "7:30 PM", 2, "Dinner", 1, "u"⟩

/-- A record that was notified (timestamp 5) and then marked absent. -/
def recAbsentNotified : RecData :=
  { present := false, last_notified := 5,
    last_milestone := some 3, last_notified_date := some "d" }

/-- The run state holding the absent-but-notified record. -/
def stReappear : RunState :=
  { seen := [(keyOf obsDinnerReappear, .dict recAbsentNotified)],
    found_this_run := [], present_this_run := [], grouped_slots := [] }

/-! ### Helper lemmas -/

theorem getEntry_setEntry {α β : Type} [DecidableEq α]
    (m : List (α × β)) (k : α) (v : β) (k' : α) :
    getEntry (setEntry m k v) k' = if k' = k then some v else getEntry m k' := by
  induction m with
  | nil =>
      simp only [setEntry, getEntry]
      by_cases h : k' = k
      · subst h; simp
      · rw [if_neg (fun hh : k = k' => h hh.symm), if_neg h]
  | cons e rest ih =>
      obtain ⟨a, b⟩ := e
      simp only [setEntry, getEntry]
      by_cases hak : a = k
      · subst hak
        by_cases h : a = k'
        · subst h; simp [getEntry]
        · have h2 : ¬ k' = a := fun hh => h hh.symm
          simp [getEntry, h, h2]
      · by_cases hk'a : a = k'
        · subst hk'a
          have h2 : ¬ a = k := hak
          simp [getEntry, h2]
        · simp [getEntry, hak, hk'a, ih]

theorem getEntry_setEntry_self {α β : Type} [DecidableEq α]
    (m : List (α × β)) (k : α) (v : β) (h : getEntry m k = some v) (k' : α) :
    getEntry (setEntry m k v) k' = getEntry m k' := by
  rw [getEntry_setEntry]
  split
  · next heq => subst heq; exact h.symm
  · rfl

theorem getEntry_mapVal {α β : Type} [DecidableEq α]
    (m : List (α × β)) (g : α → β → β) (k : α) :
    getEntry (m.map (fun e => (e.1, g e.1 e.2))) k =
      (getEntry m k).map (g k) := by
  induction m with
  | nil => simp [getEntry]
  | cons e rest ih =>
      by_cases hk : e.1 = k
      · subst hk; simp [getEntry]
      · simp [getEntry, hk, ih]

theorem getEntry_flipAbsent (seen : List (SlotKey × StoredRec))
    (ps : List SlotKey) (k : SlotKey) :
    getEntry (flipAbsent seen ps) k = (getEntry seen k).map (flipOne ps k) :=
  getEntry_mapVal seen (flipOne ps) k

/-- On the default milestone list `[3,1,0]`, the computed milestone is
`3` whenever the lead time is at most `3`, and `None` otherwise. -/
theorem current_milestone_eval (cfg : Config) (hm : cfg.MILESTONES = [3, 1, 0])
    (lead : Nat) :
    current_milestone cfg lead = if lead ≤ 3 then some 3 else none := by
  unfold current_milestone
  rw [hm]
  rcases lead with _ | _ | _ | _ | n
  · decide
  · decide
  · decide
  · decide
  · have h3 : ¬ (n + 4 ≤ 3) := by omega
    have h1 : ¬ (n + 4 ≤ 1) := by omega
    have h0 : ¬ (n + 4 ≤ 0) := by omega
    simp [List.filter, h3, h1, h0]

/-- Recording a sequence of timestamps appends them all. -/
theorem recordAll_eq (l : List Int) (rl : RateLimiter) :
    recordAll rl l = { max_per_hour := rl.max_per_hour, calls := rl.calls ++ l } := by
  unfold recordAll
  induction l generalizing rl with
  | nil => simp [RateLimiter.record_call]
  | cons t rest ih =>
      rw [List.foldl_cons, ih]
      simp [RateLimiter.record_call, List.append_assoc]

/-- Under a passed dedup check and a passed far-future gate, the outcome
of a step is the decision evaluated on the (upgraded) stored record. -/
theorem stepSlot_snd (cfg : Config) (now_ts : Int) (today_str : String)
    (st : RunState) (o : SlotObs) (hdup : keyOf o ∉ st.found_this_run)
    (hff : farFutureSuppressed cfg o = false) :
    (stepSlot cfg now_ts today_str st o).2 =
      decision cfg now_ts today_str (upgradeRec (getEntry st.seen (keyOf o))) o := by
  unfold stepSlot
  simp only [if_neg hdup, hff, Bool.false_eq_true, if_false]
  by_cases h : (decision cfg now_ts today_str
      (upgradeRec (getEntry st.seen (keyOf o))) o).notifies = true <;>
    simp [h]

/-- The decision never takes the too-far branch when the lead time is
within the service bound. -/
theorem decision_ne_tooFar (cfg : Config) (now_ts : Int) (today_str : String)
    (r : RecData) (o : SlotObs)
    (h : ¬ max_days_for cfg o.svc_name < o.lead_days) :
    decision cfg now_ts today_str r o ≠ .tooFarSkip := by
  unfold decision
  dsimp only
  split_ifs <;> simp_all

/-- A slot that passes the far-future gate of a lunch or dinner service
is within that service's `max_days_for` bound. -/
theorem farFuture_pass_le_max_days (cfg : Config) (o : SlotObs)
    (hsvc : isLunchName o.svc_name = true ∨ isDinnerName o.svc_name = true)
    (hff : farFutureSuppressed cfg o = false) :
    ¬ max_days_for cfg o.svc_name < o.lead_days := by
  unfold farFutureSuppressed at hff
  unfold max_days_for
  rcases Bool.or_eq_false_iff.mp hff with ⟨h1, h2⟩
  by_cases hl : isLunchName o.svc_name = true
  · rw [hl] at h1
    simp only [Bool.true_and, decide_eq_false_iff_not] at h1
    simp [hl, h1]
  · have hd : isDinnerName o.svc_name = true := hsvc.resolve_left hl
    rw [hd] at h2
    simp only [Bool.true_and, decide_eq_false_iff_not] at h2
    simp [hl, h2]

/-- A step on a lunch or dinner observation never takes the too-far
branch. -/
theorem stepSlot_ne_tooFar (cfg : Config) (now_ts : Int) (today_str : String)
    (st : RunState) (o : SlotObs)
    (hsvc : isLunchName o.svc_name = true ∨ isDinnerName o.svc_name = true) :
    (stepSlot cfg now_ts today_str st o).2 ≠ .tooFarSkip := by
  by_cases hdup : keyOf o ∈ st.found_this_run
  · unfold stepSlot; simp [hdup]
  by_cases hff : farFutureSuppressed cfg o = true
  · unfold stepSlot; simp [hdup, hff]
  · have hff' : farFutureSuppressed cfg o = false := by
      simpa using hff
    rw [stepSlot_snd cfg now_ts today_str st o hdup hff']
    exact decision_ne_tooFar cfg now_ts today_str _ o
      (farFuture_pass_le_max_days cfg o hsvc hff')

/-- The too-far branch is unreachable over a whole scan of lunch/dinner
observations. -/
theorem runSteps_no_tooFar (cfg : Config) (now_ts : Int) (today_str : String)
    (scan : List SlotObs) (st : RunState)
    (hsvc : ∀ o ∈ scan, isLunchName o.svc_name = true ∨ isDinnerName o.svc_name = true) :
    Outcome.tooFarSkip ∉ (runSteps cfg now_ts today_str st scan).2 := by
  induction scan generalizing st with
  | nil => simp [runSteps]
  | cons o rest ih =>
      simp only [runSteps, List.mem_cons]
      rintro (h | h)
      · exact stepSlot_ne_tooFar cfg now_ts today_str st o
          (hsvc o (by simp)) h.symm
      · exact ih _ (fun o' ho' => hsvc o' (by simp [ho'])) h

/-- One unfolding of the grid loop. -/
theorem iterGrid_unfold (t endT step : Int) :
    iterGrid t endT step =
      if t ≤ endT then
        if 0 < step then t :: iterGrid (t + step) endT step else []
      else [] := by
  rw [iterGrid]

/-- Prepending the start to a shifted arithmetic progression extends the
progression by one step. -/
theorem cons_arith_map (t step : Int) (q : Nat) :
    t :: (List.range (q + 1)).map (fun i : Nat => t + step + step * (i : Int)) =
      (List.range (q + 1 + 1)).map (fun i : Nat => t + step * (i : Int)) := by
  rw [List.range_succ_eq_map (n := q + 1), List.map_cons, List.map_map]
  congr 1
  · simp
  · apply List.map_congr_left
    intro i _
    simp only [Function.comp_apply]
    push_cast
    ring

/-- Closed form of the grid loop for a positive step: the arithmetic
progression `t, t+step, …` of length `(endT-t)/step + 1`. -/
theorem iterGrid_closed_form (endT step : Int) (hs : 0 < step) :
    ∀ (n : Nat) (t : Int), (endT - t).toNat = n → t ≤ endT →
      iterGrid t endT step =
        (List.range ((endT - t).toNat / step.toNat + 1)).map
          (fun i : Nat => t + step * (i : Int)) := by
  intro n
  induction n using Nat.strong_induction_on with
  | _ n ih =>
      intro t hn ht
      rw [iterGrid_unfold, if_pos ht, if_pos hs]
      by_cases h2 : t + step ≤ endT
      · have hrec := ih ((endT - (t + step)).toNat) (by omega) (t + step) rfl h2
        rw [hrec]
        have h3 : (endT - t).toNat = (endT - (t + step)).toNat + step.toNat := by
          omega
        have hq : (endT - t).toNat / step.toNat =
            (endT - (t + step)).toNat / step.toNat + 1 := by
          rw [h3, Nat.add_div_right _ (by omega)]
        rw [hq]
        exact cons_arith_map t step _
      · rw [iterGrid_unfold, if_neg h2]
        have hq0 : (endT - t).toNat / step.toNat = 0 :=
          Nat.div_eq_of_lt (by omega)
        rw [hq0]
        have h1 : List.range 1 = [0] := rfl
        rw [h1]
        simp

/-- Setting `present := true` on an already-present record is the
identity. -/
theorem recdata_present_eta (r : RecData) (h : r.present = true) :
    ({ r with present := true } : RecData) = r := by
  cases r
  simp_all

/-- A step on an already-notified key is a dedup skip. -/
theorem stepSlot_dedup (cfg : Config) (now_ts : Int) (today_str : String)
    (st : RunState) (o : SlotObs) (h : keyOf o ∈ st.found_this_run) :
    stepSlot cfg now_ts today_str st o = (st, .dedupSkip) := by
  unfold stepSlot
  rw [if_pos h]

/-- A step on a far-future slot is a far-future skip. -/
theorem stepSlot_farFuture (cfg : Config) (now_ts : Int) (today_str : String)
    (st : RunState) (o : SlotObs) (h1 : keyOf o ∉ st.found_this_run)
    (h2 : farFutureSuppressed cfg o = true) :
    stepSlot cfg now_ts today_str st o = (st, .farFutureSkip) := by
  unfold stepSlot
  rw [if_neg h1]
  simp [h2]

/-- A never-notified record takes the first-sighting path. -/
theorem decision_firstSighting (cfg : Config) (now_ts : Int) (today_str : String)
    (r : RecData) (o : SlotObs) (h : r.last_notified = 0) :
    decision cfg now_ts today_str r o = .firstSighting := by
  unfold decision
  dsimp only
  rw [if_pos h]

/-- A notified-but-absent record takes the reappearance path. -/
theorem decision_reappeared (cfg : Config) (now_ts : Int) (today_str : String)
    (r : RecData) (o : SlotObs) (hpos : 0 < r.last_notified)
    (hp : r.present = false) :
    decision cfg now_ts today_str r o = .reappeared := by
  unfold decision
  dsimp only
  rw [if_neg (by omega), if_pos ⟨hpos, hp⟩]

/-- If a non-negative stored record does not notify, it must be a dict
record already marked present, with a positive notification timestamp. -/
theorem nonotify_forces_dict (cfg : Config) (now_ts : Int) (today_str : String)
    (stored : Option StoredRec) (o : SlotObs)
    (hnn : ∀ s, stored = some s → recNonneg s)
    (h : (decision cfg now_ts today_str (upgradeRec stored) o).notifies = false) :
    ∃ r, stored = some (.dict r) ∧ r.present = true ∧ 0 < r.last_notified := by
  match stored with
  | none =>
      rw [show upgradeRec none = {} from rfl,
        decision_firstSighting cfg now_ts today_str _ o rfl] at h
      exact absurd h (by simp [Outcome.notifies])
  | some (.legacy ts) =>
      have hts : 0 ≤ ts := hnn _ rfl
      by_cases h0 : ts = 0
      · rw [show upgradeRec (some (.legacy ts)) = { last_notified := ts } from rfl,
          decision_firstSighting cfg now_ts today_str _ o h0] at h
        exact absurd h (by simp [Outcome.notifies])
      · rw [show upgradeRec (some (.legacy ts)) = { last_notified := ts } from rfl,
          decision_reappeared cfg now_ts today_str _ o (by simp; omega) rfl] at h
        exact absurd h (by simp [Outcome.notifies])
  | some (.dict r) =>
      have hr : 0 ≤ r.last_notified := hnn _ rfl
      by_cases h0 : r.last_notified = 0
      · rw [show upgradeRec (some (.dict r)) = r from rfl,
          decision_firstSighting cfg now_ts today_str _ o h0] at h
        exact absurd h (by simp [Outcome.notifies])
      · by_cases hp : r.present = true
        · exact ⟨r, rfl, hp, by omega⟩
        · rw [show upgradeRec (some (.dict r)) = r from rfl,
            decision_reappeared cfg now_ts today_str _ o (by omega)
              (by simpa using hp)] at h
          exact absurd h (by simp [Outcome.notifies])

/-- Field-wise description of a notifying step. -/
theorem stepSlot_notify_core (cfg : Config) (now_ts : Int) (today_str : String)
    (st : RunState) (o : SlotObs)
    (h1 : keyOf o ∉ st.found_this_run)
    (h2 : farFutureSuppressed cfg o = false)
    (h3 : (decision cfg now_ts today_str
      (upgradeRec (getEntry st.seen (keyOf o))) o).notifies = true) :
    (stepSlot cfg now_ts today_str st o).1.found_this_run =
      insertKey (keyOf o) st.found_this_run ∧
    (stepSlot cfg now_ts today_str st o).1.present_this_run =
      insertKey (keyOf o) st.present_this_run ∧
    (∀ k', getEntry (stepSlot cfg now_ts today_str st o).1.seen k' =
      if k' = keyOf o then
        some (.dict (notifRec cfg now_ts today_str o.lead_days))
      else getEntry st.seen k') := by
  unfold stepSlot
  rw [if_neg h1]
  simp only [h2, Bool.false_eq_true, if_false]
  rw [if_pos h3]
  refine ⟨rfl, rfl, ?_⟩
  intro k'
  rw [getEntry_setEntry]
  by_cases hk : k' = keyOf o
  · simp only [hk, if_pos rfl]
    rfl
  · rw [if_neg hk, if_neg hk]
    cases hst : getEntry st.seen (keyOf o) with
    | none => rfl
    | some s =>
        cases s with
        | legacy ts => rfl
        | dict r =>
            exact (getEntry_setEntry st.seen (keyOf o) _ k').trans (if_neg hk)

/-- Field-wise description of a non-notifying step on an
already-present dict record. -/
theorem stepSlot_nonotify_core (cfg : Config) (now_ts : Int) (today_str : String)
    (st : RunState) (o : SlotObs) (r : RecData)
    (h1 : keyOf o ∉ st.found_this_run)
    (h2 : farFutureSuppressed cfg o = false)
    (hst : getEntry st.seen (keyOf o) = some (.dict r))
    (hp : r.present = true)
    (h3 : (decision cfg now_ts today_str r o).notifies = false) :
    (stepSlot cfg now_ts today_str st o).1.found_this_run = st.found_this_run ∧
    (stepSlot cfg now_ts today_str st o).1.present_this_run =
      insertKey (keyOf o) st.present_this_run ∧
    (stepSlot cfg now_ts today_str st o).1.grouped_slots = st.grouped_slots ∧
    (∀ k', getEntry (stepSlot cfg now_ts today_str st o).1.seen k' =
      getEntry st.seen k') ∧
    (stepSlot cfg now_ts today_str st o).2 =
      decision cfg now_ts today_str r o := by
  unfold stepSlot
  rw [if_neg h1]
  simp only [h2, Bool.false_eq_true, if_false, hst]
  have hup : upgradeRec (some (.dict r)) = r := rfl
  rw [hup]
  have heta : ({ r with present := true } : RecData) = r := recdata_present_eta r hp
  rw [heta, if_neg (by rw [h3]; exact Bool.false_ne_true)]
  refine ⟨rfl, rfl, rfl, ?_, rfl⟩
  intro k'
  exact getEntry_setEntry_self st.seen (keyOf o) _ (by rw [hst]) k'

theorem mem_insertKey_self {α : Type} [DecidableEq α] (a : α) (s : List α) :
    a ∈ insertKey a s := by
  unfold insertKey
  split
  · assumption
  · exact List.mem_cons_self a s

theorem mem_insertKey_of_mem {α : Type} [DecidableEq α] (a b : α) (s : List α)
    (h : b ∈ s) : b ∈ insertKey a s := by
  unfold insertKey
  split
  · exact h
  · exact List.mem_cons_of_mem a h

theorem mem_insertKey {α : Type} [DecidableEq α] (a b : α) (s : List α) :
    b ∈ insertKey a s ↔ b = a ∨ b ∈ s := by
  constructor
  · intro h
    unfold insertKey at h
    split at h
    · exact Or.inr h
    · exact List.mem_cons.mp h
  · rintro (rfl | h)
    · exact mem_insertKey_self b s
    · exact mem_insertKey_of_mem a b s h

theorem getEntry_mem {α β : Type} [DecidableEq α] (m : List (α × β)) (k : α)
    (v : β) (h : getEntry m k = some v) : (k, v) ∈ m := by
  induction m with
  | nil => simp [getEntry] at h
  | cons e rest ih =>
      obtain ⟨a, b⟩ := e
      by_cases hak : a = k
      · subst hak
        simp [getEntry] at h
        subst h
        exact List.mem_cons_self _ _
      · simp only [getEntry, if_neg hak] at h
        exact List.mem_cons_of_mem _ (ih h)

/-- One unfolding of the scan fold. -/
theorem runSteps_cons (cfg : Config) (now_ts : Int) (today_str : String)
    (st : RunState) (o : SlotObs) (rest : List SlotObs) :
    runSteps cfg now_ts today_str st (o :: rest) =
      ((runSteps cfg now_ts today_str (stepSlot cfg now_ts today_str st o).1 rest).1,
        (stepSlot cfg now_ts today_str st o).2 ::
          (runSteps cfg now_ts today_str (stepSlot cfg now_ts today_str st o).1 rest).2) :=
  rfl

/-- A `getElem?` on `List.range` determines the index. -/
theorem range_getElem?_eq (n i a : Nat) (h : (List.range n)[i]? = some a) :
    a = i ∧ i < n := by
  by_cases hi : i < n
  · rw [List.getElem?_range hi] at h
    exact ⟨(Option.some_inj.mp h).symm, hi⟩
  · rw [List.getElem?_eq_none (by simpa using Nat.le_of_not_lt hi)] at h
    exact absurd h (by simp)

/-- Master invariant of the scan loop: `EngineInv` is preserved, the
per-run sets grow monotonically, every non-far-future observation ends
up marked present, and every non-far-future observation either had its
key notified or its loaded record was an already-present dict record
whose steady-state evaluation declined to notify. -/
theorem runSteps_master (cfg : Config) (now_ts : Int) (today_str : String)
    (seen0 : List (SlotKey × StoredRec)) (scan : List SlotObs)
    (Hnn : storedNonneg seen0) :
    ∀ (rest : List SlotObs), (∀ o ∈ rest, o ∈ scan) →
    ∀ (st : RunState), EngineInv cfg now_ts today_str seen0 scan st →
      EngineInv cfg now_ts today_str seen0 scan
        (runSteps cfg now_ts today_str st rest).1 ∧
      (∀ k ∈ st.found_this_run,
        k ∈ (runSteps cfg now_ts today_str st rest).1.found_this_run) ∧
      (∀ k ∈ st.present_this_run,
        k ∈ (runSteps cfg now_ts today_str st rest).1.present_this_run) ∧
      (∀ o ∈ rest, farFutureSuppressed cfg o = false →
        keyOf o ∈ (runSteps cfg now_ts today_str st rest).1.present_this_run) ∧
      (∀ o ∈ rest, farFutureSuppressed cfg o = false →
        keyOf o ∈ (runSteps cfg now_ts today_str st rest).1.found_this_run ∨
        (∃ r, getEntry seen0 (keyOf o) = some (.dict r) ∧ r.present = true ∧
          (decision cfg now_ts today_str r o).notifies = false)) := by
  intro rest
  induction rest with
  | nil =>
      intro _ st hInv
      simp only [runSteps]
      exact ⟨hInv, fun k hk => hk, fun k hk => hk, by simp, by simp⟩
  | cons o rest ih =>
      intro hsub st hInv
      obtain ⟨hA, hB, hE, hP, hO⟩ := hInv
      have ho_scan : o ∈ scan := hsub o (List.mem_cons_self o rest)
      have hsub' : ∀ o' ∈ rest, o' ∈ scan :=
        fun o' h => hsub o' (List.mem_cons_of_mem o h)
      rw [runSteps_cons]
      by_cases hdup : keyOf o ∈ st.found_this_run
      · rw [stepSlot_dedup cfg now_ts today_str st o hdup]
        obtain ⟨ih1, ih2, ih3, ih4, ih5⟩ := ih hsub' st ⟨hA, hB, hE, hP, hO⟩
        refine ⟨ih1, ih2, ih3, ?_, ?_⟩
        · intro o' ho' hffo'
          rcases List.mem_cons.mp ho' with rfl | hmem
          · exact ih3 _ (hE _ hdup)
          · exact ih4 o' hmem hffo'
        · intro o' ho' hffo'
          rcases List.mem_cons.mp ho' with rfl | hmem
          · exact Or.inl (ih2 _ hdup)
          · exact ih5 o' hmem hffo'
      · by_cases hff : farFutureSuppressed cfg o = true
        · rw [stepSlot_farFuture cfg now_ts today_str st o hdup hff]
          obtain ⟨ih1, ih2, ih3, ih4, ih5⟩ := ih hsub' st ⟨hA, hB, hE, hP, hO⟩
          refine ⟨ih1, ih2, ih3, ?_, ?_⟩
          · intro o' ho' hffo'
            rcases List.mem_cons.mp ho' with rfl | hmem
            · rw [hff] at hffo'
              exact absurd hffo' (by simp)
            · exact ih4 o' hmem hffo'
          · intro o' ho' hffo'
            rcases List.mem_cons.mp ho' with rfl | hmem
            · rw [hff] at hffo'
              exact absurd hffo' (by simp)
            · exact ih5 o' hmem hffo'
        · have hff' : farFutureSuppressed cfg o = false := by
            simpa using hff
          by_cases hnot : (decision cfg now_ts today_str
              (upgradeRec (getEntry st.seen (keyOf o))) o).notifies = true
          · -- the step notifies
            obtain ⟨hf', hp', hs'⟩ :=
              stepSlot_notify_core cfg now_ts today_str st o hdup hff' hnot
            have hInv1 : EngineInv cfg now_ts today_str seen0 scan
                (stepSlot cfg now_ts today_str st o).1 := by
              refine ⟨?_, ?_, ?_, ?_, ?_⟩
              · intro k hk
                rw [hf'] at hk
                rcases (mem_insertKey _ _ _).mp hk with rfl | hk0
                · refine ⟨o, ho_scan, rfl, ?_⟩
                  rw [hs' (keyOf o), if_pos rfl]
                · obtain ⟨o', ho's, hko', hent⟩ := hA k hk0
                  refine ⟨o', ho's, hko', ?_⟩
                  rw [hs' k, if_neg (show k ≠ keyOf o from
                    fun hkk => hdup (by rw [← hkk]; exact hk0)), hent]
              · intro k hk
                rw [hf'] at hk
                have hk1 : k ≠ keyOf o :=
                  fun hkk => hk (hkk ▸ mem_insertKey_self _ _)
                have hk2 : k ∉ st.found_this_run :=
                  fun hk0 => hk (mem_insertKey_of_mem _ _ _ hk0)
                rw [hs' k, if_neg hk1]
                exact hB k hk2
              · intro k hk
                rw [hf'] at hk
                rw [hp']
                rcases (mem_insertKey _ _ _).mp hk with rfl | hk0
                · exact mem_insertKey_self _ _
                · exact mem_insertKey_of_mem _ _ _ (hE k hk0)
              · intro k hk
                rw [hp'] at hk
                by_cases hkk : k = keyOf o
                · subst hkk
                  refine ⟨notifRec cfg now_ts today_str o.lead_days, ?_, rfl⟩
                  rw [hs' (keyOf o), if_pos rfl]
                · rcases (mem_insertKey _ _ _).mp hk with hkk' | hk0
                  · exact absurd hkk' hkk
                  · obtain ⟨r, hent, hrp⟩ := hP k hk0
                    exact ⟨r, by rw [hs' k, if_neg hkk]; exact hent, hrp⟩
              · intro k hk
                rw [hp'] at hk
                rcases (mem_insertKey _ _ _).mp hk with rfl | hk0
                · exact ⟨o, ho_scan, rfl, hff'⟩
                · exact hO k hk0
            obtain ⟨ih1, ih2, ih3, ih4, ih5⟩ := ih hsub' _ hInv1
            refine ⟨ih1, ?_, ?_, ?_, ?_⟩
            · intro k hk
              exact ih2 k (by rw [hf']; exact mem_insertKey_of_mem _ _ _ hk)
            · intro k hk
              exact ih3 k (by rw [hp']; exact mem_insertKey_of_mem _ _ _ hk)
            · intro o' ho' hffo'
              rcases List.mem_cons.mp ho' with rfl | hmem
              · exact ih3 _ (by rw [hp']; exact mem_insertKey_self _ _)
              · exact ih4 o' hmem hffo'
            · intro o' ho' hffo'
              rcases List.mem_cons.mp ho' with rfl | hmem
              · exact Or.inl (ih2 _ (by rw [hf']; exact mem_insertKey_self _ _))
              · exact ih5 o' hmem hffo'
          · -- the step does not notify
            have hnot' : (decision cfg now_ts today_str
                (upgradeRec (getEntry st.seen (keyOf o))) o).notifies = false := by
              simpa using hnot
            have hstored_nn : ∀ s, getEntry st.seen (keyOf o) = some s →
                recNonneg s := by
              intro s hs
              rw [hB (keyOf o) hdup] at hs
              exact Hnn _ (getEntry_mem _ _ _ hs)
            obtain ⟨r, hr, hrp, hrpos⟩ :=
              nonotify_forces_dict cfg now_ts today_str _ o hstored_nn hnot'
            have hdecr : (decision cfg now_ts today_str r o).notifies = false := by
              rw [hr] at hnot'
              exact hnot'
            obtain ⟨hf', hp', hg', hs', hout⟩ :=
              stepSlot_nonotify_core cfg now_ts today_str st o r hdup hff' hr hrp hdecr
            have hInv1 : EngineInv cfg now_ts today_str seen0 scan
                (stepSlot cfg now_ts today_str st o).1 := by
              refine ⟨?_, ?_, ?_, ?_, ?_⟩
              · intro k hk
                rw [hf'] at hk
                obtain ⟨o', ho's, hko', hent⟩ := hA k hk
                exact ⟨o', ho's, hko', by rw [hs' k]; exact hent⟩
              · intro k hk
                rw [hf'] at hk
                rw [hs' k]
                exact hB k hk
              · intro k hk
                rw [hf'] at hk
                rw [hp']
                exact mem_insertKey_of_mem _ _ _ (hE k hk)
              · intro k hk
                rw [hp'] at hk
                rcases (mem_insertKey _ _ _).mp hk with rfl | hk0
                · exact ⟨r, by rw [hs' (keyOf o)]; exact hr, hrp⟩
                · obtain ⟨r', hent, hrp'⟩ := hP k hk0
                  exact ⟨r', by rw [hs' k]; exact hent, hrp'⟩
              · intro k hk
                rw [hp'] at hk
                rcases (mem_insertKey _ _ _).mp hk with rfl | hk0
                · exact ⟨o, ho_scan, rfl, hff'⟩
                · exact hO k hk0
            obtain ⟨ih1, ih2, ih3, ih4, ih5⟩ := ih hsub' _ hInv1
            refine ⟨ih1, ?_, ?_, ?_, ?_⟩
            · intro k hk
              exact ih2 k (by rw [hf']; exact hk)
            · intro k hk
              exact ih3 k (by rw [hp']; exact mem_insertKey_of_mem _ _ _ hk)
            · intro o' ho' hffo'
              rcases List.mem_cons.mp ho' with rfl | hmem
              · exact ih3 _ (by rw [hp']; exact mem_insertKey_self _ _)
              · exact ih4 o' hmem hffo'
            · intro o' ho' hffo'
              rcases List.mem_cons.mp ho' with rfl | hmem
              · refine Or.inr ⟨r, ?_, hrp, hdecr⟩
                rw [← hB _ hdup]
                exact hr
              · exact ih5 o' hmem hffo'

/-- The absence pass leaves records of keys seen this run unchanged. -/
theorem flipOne_mem (ps : List SlotKey) (k : SlotKey) (s : StoredRec)
    (h : k ∈ ps) : flipOne ps k s = s := by
  cases s with
  | legacy ts => rfl
  | dict r =>
      dsimp only [flipOne]
      rw [if_neg (fun hc => hc.2 h)]

/-- The absence pass leaves every record of a key not seen this run
with `present = false` (legacy integers have no `present` field and
read as absent). -/
theorem flipOne_not_present (ps : List SlotKey) (k : SlotKey) (s : StoredRec)
    (h : k ∉ ps) : (flipOne ps k s).presentOf = false := by
  cases s with
  | legacy ts => rfl
  | dict r =>
      dsimp only [flipOne]
      by_cases hp : r.present = true
      · rw [if_pos ⟨hp, h⟩]
        rfl
      · rw [if_neg (fun hc => hp hc.1)]
        simpa [StoredRec.presentOf] using hp

/-- A record freshly persisted by the notify branch does not notify
again at the same timestamp and calendar day. -/
theorem decision_notifRec_no_notify (cfg : Config) (now_ts : Int)
    (today_str : String) (o : SlotObs) (hnow : now_ts ≠ 0)
    (hgap : 0 < cfg.RENOTIFY_MINUTES) :
    (decision cfg now_ts today_str
      (notifRec cfg now_ts today_str o.lead_days) o).notifies = false := by
  unfold decision notifRec
  dsimp only
  rw [if_neg hnow, if_neg (fun hc => by simpa using hc.2)]
  by_cases hcap : 0 < daily_cap_for cfg o.svc_name
  · rw [if_pos ⟨hcap, rfl⟩]
    rfl
  · rw [if_neg (fun hc => hcap hc.1)]
    by_cases htf : max_days_for cfg o.svc_name < o.lead_days
    · rw [if_pos htf]
      rfl
    · rw [if_neg htf, if_neg (fun hm => hm.2 rfl), if_neg (by omega)]
      rfl

/-- If every non-far-future observation finds an already-present record
that declines to notify, the scan loop adds no group at all. -/
theorem runSteps_quiet (cfg : Config) (now_ts : Int) (today_str : String)
    (scan : List SlotObs) :
    ∀ (rest : List SlotObs), (∀ o ∈ rest, o ∈ scan) →
    ∀ (st : RunState), st.found_this_run = [] →
    (∀ o ∈ scan, farFutureSuppressed cfg o = false →
      ∃ r, getEntry st.seen (keyOf o) = some (.dict r) ∧ r.present = true ∧
        (decision cfg now_ts today_str r o).notifies = false) →
    (runSteps cfg now_ts today_str st rest).1.grouped_slots =
      st.grouped_slots := by
  intro rest
  induction rest with
  | nil =>
      intro _ st _ _
      rfl
  | cons o rest ih =>
      intro hsub st hfound Hq
      have hdup : keyOf o ∉ st.found_this_run := by
        rw [hfound]
        simp
      have hsub' : ∀ o' ∈ rest, o' ∈ scan :=
        fun o' h => hsub o' (List.mem_cons_of_mem o h)
      rw [runSteps_cons]
      by_cases hff : farFutureSuppressed cfg o = true
      · rw [stepSlot_farFuture cfg now_ts today_str st o hdup hff]
        exact ih hsub' st hfound Hq
      · have hff' : farFutureSuppressed cfg o = false := by
          simpa using hff
        obtain ⟨r, hr, hrp, hdec⟩ :=
          Hq o (hsub o (List.mem_cons_self o rest)) hff'
        obtain ⟨hf', hp', hg', hs', hout⟩ :=
          stepSlot_nonotify_core cfg now_ts today_str st o r hdup hff' hr hrp hdec
        have := ih hsub' (stepSlot cfg now_ts today_str st o).1
          (by rw [hf']; exact hfound)
          (by
            intro o' ho' hffo'
            obtain ⟨r', hr', hrp', hdec'⟩ := Hq o' ho' hffo'
            exact ⟨r', by rw [hs']; exact hr', hrp', hdec'⟩)
        rw [this, hg']

/-! ### Claim theorems -/

/-- C9: for milestone list `[3,1,0]` and every non-negative lead time,
the computed milestone is the maximum configured threshold that is
greater-than-or-equal to the lead time, and `None` when no threshold is
greater-than-or-equal to it. -/
theorem claim_c9_milestone_rule (cfg : Config) (hm : cfg.MILESTONES = [3, 1, 0])
    (lead m : Nat) :
    (current_milestone cfg lead = some m ↔
      m ∈ cfg.MILESTONES ∧ lead ≤ m ∧ ∀ m' ∈ cfg.MILESTONES, lead ≤ m' → m' ≤ m) ∧
    (current_milestone cfg lead = none ↔ ∀ m' ∈ cfg.MILESTONES, m' < lead) := by
  rw [current_milestone_eval cfg hm, hm]
  by_cases h : lead ≤ 3 <;> simp [h] <;> omega

/-- Witness for C9 at lead time 1 and milestone 3. -/
theorem claim_c9_witness :
    defaultConfig.MILESTONES = [3, 1, 0] ∧
    (current_milestone defaultConfig 1 = some 3 ↔
      3 ∈ defaultConfig.MILESTONES ∧ 1 ≤ 3 ∧
        ∀ m' ∈ defaultConfig.MILESTONES, 1 ≤ m' → m' ≤ 3) :=
  ⟨rfl, (claim_c9_milestone_rule defaultConfig rfl 1 3).1⟩

/-- C7: `can_call` is true exactly when the trailing-hour occupancy is
strictly below the ceiling; `remaining` is ceiling minus occupancy
floored at zero; and after `C + 5` recorded calls within one second the
final 5 attempts see `can_call = false` and `remaining = 0`. -/
theorem claim_c7_rate_limiter :
    (∀ (rl : RateLimiter) (now : Int),
      ((rl.can_call now).1 = true ↔
        rl.calls.countP (fun t => now - t < 3600) < rl.max_per_hour) ∧
      (rl.remaining now).1 =
        ((rl.max_per_hour : Int) -
          rl.calls.countP (fun t => now - t < 3600)).toNat) ∧
    (∀ (C : Nat) (T : Int) (ts : List Int),
      ts.length = C + 5 →
      (∀ t ∈ ts, T ≤ t ∧ t < T + 1) →
      (∀ i now, C ≤ i → i < ts.length → T ≤ now → now < T + 1 →
        ((recordAll ⟨C, []⟩ (ts.take i)).can_call now).1 = false) ∧
      (∀ now, T ≤ now → now < T + 1 →
        ((recordAll ⟨C, []⟩ ts).remaining now).1 = 0)) := by
  constructor
  · intro rl now
    constructor
    · simp [RateLimiter.can_call, List.countP_eq_length_filter]
    · simp only [RateLimiter.remaining, List.countP_eq_length_filter]
      omega
  · intro C T ts hlen hin
    have hfilter : ∀ (l : List Int), (∀ t ∈ l, T ≤ t ∧ t < T + 1) →
        ∀ now, T ≤ now → now < T + 1 →
          l.filter (fun t => decide (now - t < 3600)) = l := by
      intro l hl now h1 h2
      apply List.filter_eq_self.mpr
      intro t ht
      have := hl t ht
      simp only [decide_eq_true_iff]
      omega
    constructor
    · intro i now hCi hilen h1 h2
      rw [recordAll_eq]
      simp only [RateLimiter.can_call, List.nil_append,
        hfilter (ts.take i) (fun t ht => hin t (List.mem_of_mem_take ht)) now h1 h2]
      simp only [List.length_take, decide_eq_false_iff_not, Nat.not_lt]
      omega
    · intro now h1 h2
      rw [recordAll_eq]
      simp only [RateLimiter.remaining, List.nil_append,
        hfilter ts hin now h1 h2]
      omega

/-- Witness for C7: ceiling 2, seven calls at the same instant; the
third attempt is refused and nothing remains at the end. -/
theorem claim_c7_witness :
    ([(10 : Int), 10, 10, 10, 10, 10, 10].length = 2 + 5 ∧
      (∀ t ∈ [(10 : Int), 10, 10, 10, 10, 10, 10], (10 : Int) ≤ t ∧ t < 10 + 1)) ∧
    ((recordAll ⟨2, []⟩ ([(10 : Int), 10, 10, 10, 10, 10, 10].take 2)).can_call 10).1
        = false ∧
    ((recordAll ⟨2, []⟩ [(10 : Int), 10, 10, 10, 10, 10, 10]).remaining 10).1 = 0 :=
  ⟨⟨by decide, by decide⟩,
    ((claim_c7_rate_limiter.2 2 10 _ (by decide) (by decide)).1 2 10
      (by decide) (by decide) (by decide) (by decide)),
    ((claim_c7_rate_limiter.2 2 10 _ (by decide) (by decide)).2 10
      (by decide) (by decide))⟩

/-- C3: a stored record with positive `last_notified` and `present =
false`, observed again within the far-future ceiling, fires a
reappearance notification for every configuration — independent of the
daily cap, the lead-time window, the milestone state and the elapsed
time since the last notification. -/
theorem claim_c3_reappearance (cfg : Config) (now_ts : Int) (today_str : String)
    (st : RunState) (o : SlotObs) (r : RecData)
    (hrec : getEntry st.seen (keyOf o) = some (.dict r))
    (hlast : 0 < r.last_notified) (habs : r.present = false)
    (hnew : keyOf o ∉ st.found_this_run)
    (hff : farFutureSuppressed cfg o = false) :
    (stepSlot cfg now_ts today_str st o).2 = .reappeared ∧
    Outcome.notifies (stepSlot cfg now_ts today_str st o).2 = true := by
  have hdec : decision cfg now_ts today_str r o = .reappeared := by
    unfold decision
    dsimp only
    rw [if_neg (by omega), if_pos ⟨hlast, habs⟩]
  have hsnd := stepSlot_snd cfg now_ts today_str st o hnew hff
  rw [hrec] at hsnd
  simp only [upgradeRec] at hsnd
  rw [hsnd, hdec]
  exact ⟨rfl, rfl⟩

/-- Witness for C3: a concrete absent-but-notified record reappears and
notifies. -/
theorem claim_c3_witness :
    (stepSlot defaultConfig 1000 "d" stReappear obsDinnerReappear).2 = .reappeared :=
  (claim_c3_reappearance defaultConfig 1000 "d" stReappear obsDinnerReappear
    recAbsentNotified (by decide) (by decide) (by decide) (by decide) (by decide)).1

/-- C4 as corrected: the daily cap is accounted per slot key, not per
service: once a key's record carries `last_notified_date = today`, a
steady-state evaluation of that same key is suppressed whenever its
service has a positive cap (distinct keys of the same service are not
affected, see the counterexample). -/
theorem claim_c4_amended (cfg : Config) (now_ts : Int) (today_str : String)
    (st : RunState) (o : SlotObs) (r : RecData)
    (hrec : getEntry st.seen (keyOf o) = some (.dict r))
    (hln : r.last_notified ≠ 0) (hpres : r.present = true)
    (hcap : 0 < daily_cap_for cfg o.svc_name)
    (hdate : r.last_notified_date = some today_str)
    (hnew : keyOf o ∉ st.found_this_run)
    (hff : farFutureSuppressed cfg o = false) :
    (stepSlot cfg now_ts today_str st o).2 = .dailyCapSkip ∧
    (stepSlot cfg now_ts today_str st o).1.grouped_slots = st.grouped_slots ∧
    (stepSlot cfg now_ts today_str st o).1.found_this_run = st.found_this_run := by
  have hdec : decision cfg now_ts today_str r o = .dailyCapSkip := by
    unfold decision
    dsimp only
    rw [if_neg hln, if_neg (fun hc => by rw [hpres] at hc; exact absurd hc.2 (by simp)),
      if_pos ⟨hcap, hdate⟩]
  refine ⟨?_, ?_, ?_⟩
  · have hsnd := stepSlot_snd cfg now_ts today_str st o hnew hff
    rw [hrec] at hsnd
    simp only [upgradeRec] at hsnd
    rw [hsnd, hdec]
  · unfold stepSlot
    rw [if_neg hnew, hff]
    simp only [Bool.false_eq_true, if_false, hrec, upgradeRec, hdec]
    rfl
  · unfold stepSlot
    rw [if_neg hnew, hff]
    simp only [Bool.false_eq_true, if_false, hrec, upgradeRec, hdec]
    rfl

/-- Witness for C4's amended statement: a capped lunch key already
notified today is suppressed. -/
theorem claim_c4_amended_witness :
    (stepSlot defaultConfig 600000 "2026-01-01"
      { seen := [(keyOf obsLunchNoon, .dict recNotifiedYesterday)],
        found_this_run := [], present_this_run := [], grouped_slots := [] }
      obsLunchNoon).2 = .dailyCapSkip :=
  (claim_c4_amended defaultConfig 600000 "2026-01-01" _ obsLunchNoon
    recNotifiedYesterday (by decide) (by decide) (by decide) (by decide)
    (by decide) (by decide) (by decide)).1

/-- C4 counterexample: with `daily_cap = 1` for lunch, two distinct
lunch keys both trigger steady-state milestone notifications on the
same calendar day in the same run — two notifications for one service
on one day, refuting the per-service reading of the cap. -/
theorem claim_c4_counterexample :
    (run_once defaultConfig 600000 "2026-01-04"
        [(keyOf obsLunchNoon, .dict recNotifiedYesterday),
         (keyOf obsLunchLater, .dict recNotifiedYesterday)]
        [obsLunchNoon, obsLunchLater]).outcomes =
      [.milestoneHit, .milestoneHit] ∧
    (run_once defaultConfig 600000 "2026-01-04"
        [(keyOf obsLunchNoon, .dict recNotifiedYesterday),
         (keyOf obsLunchLater, .dict recNotifiedYesterday)]
        [obsLunchNoon, obsLunchLater]).items.length = 2 ∧
    daily_cap_for defaultConfig "Lunch" = 1 ∧
    obsLunchNoon.svc_name = "Lunch" ∧ obsLunchLater.svc_name = "Lunch" ∧
    keyOf obsLunchNoon ≠ keyOf obsLunchLater := by
  refine ⟨by decide, by decide, by decide, rfl, rfl, by decide⟩

/-- C5 counterexample: the grouper renders a notification for a group
whose satisfied size set `{7}` matches no configured combination
(`PARTY_SIZES = [2,4]`): nothing is dropped and no diagnostic exists. -/
theorem claim_c5_counterexample :
    (run_once defaultConfig 600000 "2026-01-04" [] [obsPartySeven]).items =
      [{ title := NOTIFICATION_PREFIX,
         message := "Mon Jan 05 @ 7:30 PM, for 7. Act fast!",
         url := "u7", url_title := "Reserve Now" }] ∧
    obsPartySeven.party ∉ PARTY_SIZES := by
  refine ⟨by decide, by decide⟩

/-- C5 as corrected: the grouper drops nothing — it renders exactly one
notification per group, whatever the group's size set is; unconfigured
size sets are prevented only upstream (the scan loop probes only the
configured sizes). -/
theorem claim_c5_amended (grouped : List (GroupKey × List (Nat × String))) :
    (buildItems grouped).length = grouped.length := by
  simp [buildItems]

/-- C10: over any scan containing only lunch and dinner observations —
the only services `enabled_services` can produce — the steady-state
too-far skip branch never executes: its guard is subsumed by the
far-future gate, which uses the same per-service bound. -/
theorem claim_c10_toofar_unreachable (cfg : Config) (now_ts : Int)
    (today_str : String) (seen0 : List (SlotKey × StoredRec))
    (scan : List SlotObs)
    (hsvc : ∀ o ∈ scan,
      isLunchName o.svc_name = true ∨ isDinnerName o.svc_name = true) :
    Outcome.tooFarSkip ∉ (run_once cfg now_ts today_str seen0 scan).outcomes := by
  unfold run_once
  exact runSteps_no_tooFar cfg now_ts today_str scan _ hsvc

/-- C1: on the milestone thresholds `[3,1,0]` with lead-time sequence
`5 → 2 → 1 → 0` over successive runs (no daily cap for dinner, cooldown
too long to fire), the engine notifies at lead time 2 — recording
milestone `3` — but does NOT notify at lead time 0: the code computes
`current_milestone 0 = 3` (the maximum threshold ≥ 0), while its own
docstring documents `lead_days=0 -> 0`, so no milestone change is seen
and the run yields no notification, contradicting the claimed behavior. -/
theorem claim_c1_milestone_sequence :
    milestoneRun1.items = [] ∧
    milestoneRun1.outcomes = [.farFutureSkip] ∧
    milestoneRun2.items.length = 1 ∧
    milestoneRun2.outcomes = [.firstSighting] ∧
    getEntry milestoneRun2.seen (keyOf (obsDinnerAt 2)) =
      some (.dict { present := true, last_notified := 1086400,
                    last_milestone := some 3, last_notified_date := some "d2" }) ∧
    milestoneRun3.items = [] ∧
    milestoneRun4.items = [] ∧
    milestoneRun4.outcomes = [.noTrigger] ∧
    current_milestone cfgMilestoneSeq 0 = some 3 ∧
    current_milestone cfgMilestoneSeq 1 = some 3 := by
  refine ⟨by decide, by decide, by decide, by decide, by decide, by decide,
    by decide, by decide, by decide, by decide⟩

/-- Witness for C10: a dinner slot five days out is far-future
suppressed, not too-far skipped. -/
theorem claim_c10_witness :
    (∀ o ∈ [obsDinnerAt 5],
      isLunchName o.svc_name = true ∨ isDinnerName o.svc_name = true) ∧
    Outcome.tooFarSkip ∉
      (run_once defaultConfig 1000 "d" [] [obsDinnerAt 5]).outcomes :=
  ⟨by decide, claim_c10_toofar_unreachable defaultConfig 1000 "d" [] [obsDinnerAt 5]
    (by decide)⟩

/-- C8: for every day, start/end time-of-day with start ≤ end and
positive step, the grid enumerator yields a non-decreasing sequence of
local timestamps beginning at start, advancing by exactly the step,
including the end timestamp when the window length is a multiple of the
step, with length `(end - start) / step + 1`. -/
theorem claim_c8_grid_enumerator (day : Int) (sh sm eh em : Nat) (step : Int)
    (hs : 0 < step)
    (hle : (sh : Int) * 60 + sm ≤ (eh : Int) * 60 + em) :
    (iter_grid day (sh, sm) (eh, em) step).length =
      (((eh : Int) * 60 + em) - ((sh : Int) * 60 + sm)).toNat / step.toNat + 1 ∧
    List.Chain' (· ≤ ·) (iter_grid day (sh, sm) (eh, em) step) ∧
    (iter_grid day (sh, sm) (eh, em) step).head? =
      some (day * 1440 + sh * 60 + sm) ∧
    (∀ (i : Nat) (x y : Int),
      (iter_grid day (sh, sm) (eh, em) step)[i]? = some x →
      (iter_grid day (sh, sm) (eh, em) step)[i + 1]? = some y →
      y = x + step) ∧
    (step ∣ ((eh : Int) * 60 + em) - ((sh : Int) * 60 + sm) →
      (day * 1440 + eh * 60 + em) ∈ iter_grid day (sh, sm) (eh, em) step) := by
  have hse : day * 1440 + (sh : Int) * 60 + sm ≤ day * 1440 + (eh : Int) * 60 + em := by
    omega
  have hgrid : iter_grid day (sh, sm) (eh, em) step =
      iterGrid (day * 1440 + (sh : Int) * 60 + sm)
        (day * 1440 + (eh : Int) * 60 + em) step := rfl
  have hclosed := iterGrid_closed_form (day * 1440 + (eh : Int) * 60 + em) step hs
    ((day * 1440 + (eh : Int) * 60 + em) - (day * 1440 + (sh : Int) * 60 + sm)).toNat
    (day * 1440 + (sh : Int) * 60 + sm) rfl hse
  have hdiff : (day * 1440 + (eh : Int) * 60 + em) -
      (day * 1440 + (sh : Int) * 60 + sm) =
      ((eh : Int) * 60 + em) - ((sh : Int) * 60 + sm) := by ring
  rw [hgrid, hclosed, hdiff]
  refine ⟨?_, ?_, ?_, ?_, ?_⟩
  · simp [List.length_map, List.length_range]
  · refine List.Pairwise.chain' ?_
    refine List.Pairwise.map _ ?_ (List.pairwise_lt_range _)
    intro a b hab
    have hab' : (a : Int) ≤ (b : Int) := by exact_mod_cast Nat.le_of_lt hab
    have := mul_le_mul_of_nonneg_left hab' (le_of_lt hs)
    omega
  · rw [List.range_succ_eq_map, List.map_cons]
    simp
  · intro i x y hx hy
    rw [List.getElem?_map] at hx hy
    obtain ⟨a, ha, hfa⟩ := Option.map_eq_some'.mp hx
    obtain ⟨b, hb, hfb⟩ := Option.map_eq_some'.mp hy
    obtain ⟨hai, _⟩ := range_getElem?_eq _ _ _ ha
    obtain ⟨hbi, _⟩ := range_getElem?_eq _ _ _ hb
    subst hai hbi
    rw [← hfa, ← hfb]
    push_cast
    ring
  · intro hdvd
    obtain ⟨k, hk⟩ := hdvd
    have hd0 : (0 : Int) ≤ ((eh : Int) * 60 + em) - ((sh : Int) * 60 + sm) := by
      omega
    have hk0 : (0 : Int) ≤ k := by
      by_contra hneg
      push_neg at hneg
      have hneg2 : step * k < 0 := mul_neg_of_pos_of_neg hs hneg
      rw [hk] at hd0
      omega
    have hkK : ((k.toNat : Int)) = k := Int.toNat_of_nonneg hk0
    have hd2 : ((eh : Int) * 60 + em) - ((sh : Int) * 60 + sm) =
        ((step.toNat * k.toNat : Nat) : Int) := by
      push_cast
      rw [Int.toNat_of_nonneg (le_of_lt hs), hkK]
      exact hk
    have hq : (((eh : Int) * 60 + em) - ((sh : Int) * 60 + sm)).toNat / step.toNat
        = k.toNat := by
      rw [hd2, Int.toNat_natCast]
      exact Nat.mul_div_cancel_left _ (by omega)
    refine List.mem_map.mpr ⟨(((eh : Int) * 60 + em) -
      ((sh : Int) * 60 + sm)).toNat / step.toNat, List.self_mem_range_succ _, ?_⟩
    rw [hq, hkK]
    have hk' : step * k = ((eh : Int) * 60 + em) - ((sh : Int) * 60 + sm) := hk.symm
    omega

/-- C2: in the state handed to save, every key observed this run and
not far-future-suppressed holds a dict record with `present = true` —
whether or not a notification fired and whatever shape (legacy integer
or dict) its loaded record had — and every stored key not so observed
reads as `present = false`.  The loaded state is assumed to carry
non-negative timestamps, which `load_seen`'s retention cutoff
guarantees. -/
theorem claim_c2_presence_bookkeeping (cfg : Config) (now_ts : Int)
    (today_str : String) (seen0 : List (SlotKey × StoredRec))
    (scan : List SlotObs) (Hnn : storedNonneg seen0) (k : SlotKey) :
    ((∃ o ∈ scan, keyOf o = k ∧ farFutureSuppressed cfg o = false) →
      ∃ r : RecData, getEntry (run_once cfg now_ts today_str seen0 scan).seen k =
        some (.dict r) ∧ r.present = true) ∧
    ((¬ ∃ o ∈ scan, keyOf o = k ∧ farFutureSuppressed cfg o = false) →
      ∀ s, getEntry (run_once cfg now_ts today_str seen0 scan).seen k = some s →
        s.presentOf = false) := by
  have hInit : EngineInv cfg now_ts today_str seen0 scan
      { seen := seen0, found_this_run := [], present_this_run := [],
        grouped_slots := [] } := by
    refine ⟨by simp, fun k _ => rfl, by simp, by simp, by simp⟩
  obtain ⟨⟨hA, hB, hE, hP, hO⟩, _, _, h4, h5⟩ :=
    runSteps_master cfg now_ts today_str seen0 scan Hnn scan (fun o h => h) _ hInit
  have hro : (run_once cfg now_ts today_str seen0 scan).seen =
      flipAbsent
        (runSteps cfg now_ts today_str
          { seen := seen0, found_this_run := [], present_this_run := [],
            grouped_slots := [] } scan).1.seen
        (runSteps cfg now_ts today_str
          { seen := seen0, found_this_run := [], present_this_run := [],
            grouped_slots := [] } scan).1.present_this_run := rfl
  constructor
  · rintro ⟨o, ho, hko, hffo⟩
    have hkp := h4 o ho hffo
    rw [hko] at hkp
    obtain ⟨r, hent, hrp⟩ := hP k hkp
    refine ⟨r, ?_, hrp⟩
    rw [hro, getEntry_flipAbsent, hent, Option.map_some', flipOne_mem _ _ _ hkp]
  · intro hnone s hs
    have hkp : k ∉ (runSteps cfg now_ts today_str
        { seen := seen0, found_this_run := [], present_this_run := [],
          grouped_slots := [] } scan).1.present_this_run :=
      fun hk => hnone (hO k hk)
    rw [hro, getEntry_flipAbsent] at hs
    obtain ⟨s0, _, hmap⟩ := Option.map_eq_some'.mp hs
    rw [← hmap]
    exact flipOne_not_present _ _ _ hkp

/-- Witness for C2: an empty loaded state and a single dinner
observation; its key ends up stored with `present = true`. -/
theorem claim_c2_witness :
    storedNonneg [] ∧
    (∃ o ∈ [obsDinnerAt 2], keyOf o = keyOf (obsDinnerAt 2) ∧
      farFutureSuppressed defaultConfig o = false) ∧
    ∃ r : RecData,
      getEntry (run_once defaultConfig 100 "d" [] [obsDinnerAt 2]).seen
        (keyOf (obsDinnerAt 2)) = some (.dict r) ∧ r.present = true :=
  ⟨fun p hp => absurd hp (by simp),
    ⟨obsDinnerAt 2, by simp, rfl, by decide⟩,
    (claim_c2_presence_bookkeeping defaultConfig 100 "d" [] [obsDinnerAt 2]
      (fun p hp => absurd hp (by simp)) (keyOf (obsDinnerAt 2))).1
      ⟨obsDinnerAt 2, by simp, rfl, by decide⟩⟩

/-- C6: with a positive renotify cooldown, a nonzero run timestamp, a
key-consistent scan and a well-formed loaded state, running the engine
a second time on the identical scan — same timestamp, same calendar
day — starting from the state the first run saved produces zero
notifications. -/
theorem claim_c6_idempotent (cfg : Config) (now_ts : Int) (today_str : String)
    (seen0 : List (SlotKey × StoredRec)) (scan : List SlotObs)
    (Hnow : now_ts ≠ 0) (Hgap : 0 < cfg.RENOTIFY_MINUTES)
    (Hcons : keyConsistent scan) (Hnn : storedNonneg seen0) :
    (run_once cfg now_ts today_str
      (run_once cfg now_ts today_str seen0 scan).seen scan).items = [] := by
  have hInit : EngineInv cfg now_ts today_str seen0 scan
      { seen := seen0, found_this_run := [], present_this_run := [],
        grouped_slots := [] } := by
    refine ⟨by simp, fun k _ => rfl, by simp, by simp, by simp⟩
  obtain ⟨⟨hA, hB, hE, hP, hO⟩, _, _, h4, h5⟩ :=
    runSteps_master cfg now_ts today_str seen0 scan Hnn scan (fun o h => h) _ hInit
  have Hq : ∀ o ∈ scan, farFutureSuppressed cfg o = false →
      ∃ r, getEntry (run_once cfg now_ts today_str seen0 scan).seen (keyOf o) =
          some (.dict r) ∧ r.present = true ∧
        (decision cfg now_ts today_str r o).notifies = false := by
    intro o ho hffo
    have hkp := h4 o ho hffo
    by_cases hin : keyOf o ∈ (runSteps cfg now_ts today_str
        { seen := seen0, found_this_run := [], present_this_run := [],
          grouped_slots := [] } scan).1.found_this_run
    · obtain ⟨o', ho's, hko', hent⟩ := hA _ hin
      have hlead : o'.lead_days = o.lead_days :=
        Hcons o' ho's o ho (by rw [hko'])
      rw [hlead] at hent
      refine ⟨notifRec cfg now_ts today_str o.lead_days, ?_, rfl,
        decision_notifRec_no_notify cfg now_ts today_str o Hnow Hgap⟩
      show getEntry (flipAbsent _ _) (keyOf o) = _
      rw [getEntry_flipAbsent, hent, Option.map_some', flipOne_mem _ _ _ hkp]
    · rcases h5 o ho hffo with hin' | ⟨r, hr0, hrp, hdec⟩
      · exact absurd hin' hin
      · refine ⟨r, ?_, hrp, hdec⟩
        show getEntry (flipAbsent _ _) (keyOf o) = _
        rw [getEntry_flipAbsent, hB _ hin, hr0, Option.map_some',
          flipOne_mem _ _ _ hkp]
  have h2 : (runSteps cfg now_ts today_str
      { seen := (run_once cfg now_ts today_str seen0 scan).seen,
        found_this_run := [], present_this_run := [],
        grouped_slots := [] } scan).1.grouped_slots = [] :=
    runSteps_quiet cfg now_ts today_str scan scan (fun o h => h) _ rfl Hq
  show buildItems (runSteps cfg now_ts today_str
      { seen := (run_once cfg now_ts today_str seen0 scan).seen,
        found_this_run := [], present_this_run := [],
        grouped_slots := [] } scan).1.grouped_slots = []
  rw [h2]
  rfl

/-- Witness for C6: empty prior state, one dinner slot two days out;
the second identical run sends nothing. -/
theorem claim_c6_witness :
    ((100 : Int) ≠ 0 ∧ 0 < defaultConfig.RENOTIFY_MINUTES ∧
      keyConsistent [obsDinnerAt 2] ∧ storedNonneg []) ∧
    (run_once defaultConfig 100 "d"
      (run_once defaultConfig 100 "d" [] [obsDinnerAt 2]).seen
      [obsDinnerAt 2]).items = [] :=
  ⟨⟨by decide, by decide,
    fun o1 h1 o2 h2 _ => by
      simp only [List.mem_singleton] at h1 h2
      rw [h1, h2],
    fun p hp => absurd hp (by simp)⟩,
    claim_c6_idempotent defaultConfig 100 "d" [] [obsDinnerAt 2]
      (by decide) (by decide)
      (fun o1 h1 o2 h2 _ => by
        simp only [List.mem_singleton] at h1 h2
        rw [h1, h2])
      (fun p hp => absurd hp (by simp))⟩

/-- Witness for C8: the dinner window 17:00–22:15 with a 15-minute
step has (315/15)+1 = 22 probe instants. -/
theorem claim_c8_witness :
    ((0 : Int) < 15 ∧
      ((17 : Nat) : Int) * 60 + ((0 : Nat) : Int) ≤
        ((22 : Nat) : Int) * 60 + ((15 : Nat) : Int)) ∧
    (iter_grid 0 (17, 0) (22, 15) 15).length =
      ((((22 : Nat) : Int) * 60 + ((15 : Nat) : Int)) -
        (((17 : Nat) : Int) * 60 + ((0 : Nat) : Int))).toNat / (15 : Int).toNat + 1 :=
  ⟨⟨by decide, by decide⟩,
    (claim_c8_grid_enumerator 0 17 0 22 15 15 (by decide) (by decide)).1⟩

end Stonewatch
